import Mathlib

/-!
Shallow embedding of the kyro repository (Go) for verification.

Pipeline layer (src/pipeline.go): type-erased steps over a closed universe
of Go values, sequential and parallel composition, the internal exit-signal
error, and the runtime type assertion that panics on mismatch.

Worker-pool layer (src/pqueue.go, src/file_processor.go): the parallel queue
over an in-memory slice and the parallel file processor over a file's lines.
Worker interleaving is modelled by quantifying over the order in which the
per-item worker bodies execute (a permutation of the source items); the
quantities the claims speak about (error-channel occupancy, the mutex-guarded
processed counter, notification counts) are insensitive to the finer
interleaving of the two atomic events inside one worker-body iteration.
-/

namespace Kyro

/-- Go errors as seen by the pipeline: the distinguished exit sentinel
(errExit in src/pipeline.go line 18), plain errors from errors.New, and
wrapped errors; GoError.isExit mirrors errors.Is(err, errExit). -/
inductive GoError where
  | exit : GoError
  | base : String → GoError
  | wrap : String → GoError → GoError
deriving DecidableEq, Repr

/-- errors.Is(e, errExit): walks the wrap chain looking for the sentinel. -/
def GoError.isExit : GoError → Bool
  | .exit => true
  | .base _ => false
  | .wrap _ e => e.isExit

/-- The Go check `currentErr != nil && errors.Is(currentErr, errExit)`:
a nil error never matches. -/
def isExitOpt : Option GoError → Bool
  | none => false
  | some e => e.isExit

/-- Runtime type tags for the Go values the pipeline manipulates. -/
inductive GoTy where
  | tint : GoTy
  | tstr : GoTy
  | tslice : GoTy
deriving DecidableEq, Repr

/-- Printable type name, as %T renders it in the panic message. -/
def tyName : GoTy → String
  | .tint => "int"
  | .tstr => "string"
  | .tslice => "slice"

/-- The universe of Go values flowing through the pipeline: ints, strings,
and slices of possibly-nil values (the []any produced by InParallel). -/
inductive GoVal where
  | vint : Int → GoVal
  | vstr : String → GoVal
  | vslice : List (Option GoVal) → GoVal

/-- The runtime type of a value. -/
def GoVal.ty : GoVal → GoTy
  | .vint _ => .tint
  | .vstr _ => .tstr
  | .vslice _ => .tslice

/-- zero value of a Go type, substituted by AssertIn for a nil input. -/
def zeroOf : GoTy → GoVal
  | .tint => .vint 0
  | .tstr => .vstr ""
  | .tslice => .vslice []

/-- A Go panic raised by the type assertion in AssertIn: it records the
expected and actual type names carried by the panic message. -/
structure GoPanic where
  expected : String
  actual : String

/-- A step either panics (Go panic, unwinding uncaught through the
composers) or returns an (output, error) pair; nil values and nil errors
are the none cases. -/
abbrev StepResult := Except GoPanic (Option GoVal × Option GoError)

/-- PipelineStep (src/pipeline.go line 12): input any, lastErr error to
(output any, err error), with panics made explicit. -/
abbrev PipelineStep := Option GoVal → Option GoError → StepResult

/-- AssertIn (src/pipeline.go lines 49-61): nil input yields the zero
value; a mismatched runtime type panics with a message naming the expected
and actual types. -/
def AssertIn (T : GoTy) (input : Option GoVal) : Except GoPanic GoVal :=
  match input with
  | none => .ok (zeroOf T)
  | some v =>
      if v.ty = T then .ok v
      else .error { expected := tyName T, actual := tyName v.ty }

/-- AsPipelineStep (src/pipeline.go lines 40-45): wraps a typed function,
asserting the input type first; the panic from a failed assertion
propagates. -/
def AsPipelineStep (T : GoTy)
    (step : GoVal → Option GoError → Option GoVal × Option GoError) :
    PipelineStep :=
  fun input lastErr =>
    match AssertIn T input with
    | .error p => .error p
    | .ok v => .ok (step v lastErr)

/-- The loop body of InSequence (src/pipeline.go lines 66-84): threads
(currentInput, currentErr) while remembering beforeExitErr, the error
observed before the step that is about to run; a step returning an
exit-matching error makes the whole composition return (nil, beforeExitErr). -/
def seqLoop : List PipelineStep → Option GoVal → Option GoError →
    Option GoError → StepResult
  | [], cur, curErr, _ => .ok (cur, curErr)
  | s :: rest, cur, curErr, beforeExit =>
      match s cur curErr with
      | .error p => .error p
      | .ok (out, err2) =>
          if isExitOpt err2 then .ok (none, beforeExit)
          else seqLoop rest out err2 err2

/-- InSequence (src/pipeline.go lines 66-84). -/
def InSequence (steps : List PipelineStep) : PipelineStep :=
  fun input lastErr => seqLoop steps input lastErr lastErr

/-- The plain left-to-right fold threading each step's (value, error)
output into the next step, with no exit check: the reference semantics the
spec compares InSequence against. -/
def threadSteps : List PipelineStep → Option GoVal × Option GoError → StepResult
  | [], st => .ok st
  | s :: rest, (v, e) =>
      match s v e with
      | .error p => .error p
      | .ok st2 => threadSteps rest st2

/-- No step of the list, run in sequence from the given state, returns an
error matching the exit signal (panicking cuts the run short, so later
steps are unconstrained). -/
def noExitAlong : List PipelineStep → Option GoVal × Option GoError → Bool
  | [], _ => true
  | s :: rest, (v, e) =>
      match s v e with
      | .error _ => true
      | .ok (v2, e2) => !isExitOpt e2 && noExitAlong rest (v2, e2)

/-- A pure function lifted to a step: passes the error through untouched. -/
def pureStep (f : Option GoVal → Option GoVal) : PipelineStep :=
  fun v e => .ok (f v, e)

/-- ExitOnErrorStep (src/pipeline.go lines 155-163): converts a non-nil
previous error into the exit signal. -/
def ExitOnErrorStep : PipelineStep :=
  fun input err =>
    match err with
    | some _ => .ok (none, some .exit)
    | none => .ok (input, none)

/-- Extracts the panic of a branch result, if any. -/
def getPanic : StepResult → Option GoPanic
  | .error p => some p
  | .ok _ => none

/-- Extracts the non-nil error of a branch that returned, if any. -/
def getErr : StepResult → Option GoError
  | .ok (_, some e) => some e
  | _ => none

/-- The slot an InParallel branch leaves in the results slice: set only
when the branch returned with a nil error (src/pipeline.go line 117),
otherwise the slot keeps its nil zero value. -/
def getOut : StepResult → Option GoVal
  | .ok (v, none) => v
  | _ => none

/-- Picks one element of a nonempty list; the index models which error (or
panic) wins the race onto the buffered channel. -/
def pick (sched : Nat) (x : GoError) (xs : List GoError) : GoError :=
  (x :: xs).get ⟨sched % (xs.length + 1), Nat.mod_lt _ (Nat.succ_pos _)⟩

def pickPanic (sched : Nat) (x : GoPanic) (xs : List GoPanic) : GoPanic :=
  (x :: xs).get ⟨sched % (xs.length + 1), Nat.mod_lt _ (Nat.succ_pos _)⟩

/-- The final select of InParallel (src/pipeline.go lines 127-132) races
the buffered error channel against the completion signal. An erroring
branch sends its error before its wg.Done runs, so by the time done is
closed every branch error is already in the channel: if the coordinator
blocks in the select while branches still run, the first error wins; but
if every branch has finished before the coordinator executes the select,
both cases are ready and Go chooses between them uniformly at random.
The schedule's parity models that coin flip: true means the done case
wins a both-ready select and the run returns (results, nil) even though
an error is pending in the channel. -/
def selectDoneFirst (sched : Nat) : Bool := sched % 2 == 1

/-- InParallel (src/pipeline.go lines 91-134): zero steps returns
(nil, nil); otherwise every branch runs to completion on the same
(input, lastErr); a panic in a branch crashes the program; if some branch
returned a non-nil error, the final select either returns one of those
errors (chosen by the schedule) with a nil slice, or — when the schedule
makes the done case win the both-ready select — returns the results
slice with nil at the errored indices and a nil error; with no branch
errors the results slice, indexed by declaration order, is returned. -/
def InParallel (sched : Nat) (steps : List PipelineStep) : PipelineStep :=
  fun input lastErr =>
    match steps with
    | [] => .ok (none, none)
    | _ :: _ =>
        let rs := steps.map (fun s => s input lastErr)
        match rs.filterMap getPanic with
        | p :: ps => .error (pickPanic sched p ps)
        | [] =>
            match rs.filterMap getErr with
            | e :: es =>
                if selectDoneFirst sched then
                  .ok (some (.vslice (rs.map getOut)), none)
                else .ok (none, some (pick (sched / 2) e es))
            | [] => .ok (some (.vslice (rs.map getOut)), none)

/-- A concrete immediately-failing branch, used to exhibit both outcomes
of the final select race in InParallel. -/
def errStepX : PipelineStep :=
  fun _ _ => Except.ok (none, some (GoError.base "x"))

/-! ## Worker-pool layer (src/pqueue.go and src/file_processor.go) -/

/-- Configuration errors and the aggregate error of a worker-pool run,
one constructor per fmt.Errorf message in the two Process functions. -/
inductive PoolError where
  | workersMustBePositive : PoolError
  | itemsMustBeNonEmpty : PoolError
  | processFuncMustBeSet : PoolError
  | filePathMustBeSet : PoolError
  | processLineFuncMustBeSet : PoolError
  | failedToOpenFile : PoolError
  | encounteredErrors : Nat → PoolError
deriving DecidableEq, Repr

/-- Observable trace of one worker-pool run: the contents of the buffered
error channel in send order, the mutex-guarded processed counter, how often
the process function, the progress notifier and the error notifier were
invoked, and the processed counts passed to the progress notifier. -/
structure PoolState (α : Type) where
  errList : List α := []
  processed : Nat := 0
  processCalls : Nat := 0
  progressCalls : List Nat := []
  errorCalls : Nat := 0
deriving Repr

/-- The initial pool state: nothing processed, no notifier invoked. -/
def initPool (α : Type) : PoolState α := {}

/-- Go's % on the processed counter: int division by zero panics
(modelled as none); otherwise truncated remainder. -/
def goMod (p : Nat) (b : Int) : Option Int :=
  if b = 0 then none else some (Int.tmod p b)

/-- One iteration of the worker body shared by ParallelQueue.Process
(src/pqueue.go lines 89-120) and ParallelFileProcessor.Process
(src/file_processor.go lines 93-124): invoke the process function; on
failure try a non-blocking send of the item onto the error channel of the
given capacity, notifying the error notifier once on success and twice
(capacity fault, then the original error) when the channel is full;
increment the processed counter under the mutex; when a progress notifier
is set and the counter is a multiple of the batch, invoke it with the
counter value (a zero batch panics on the modulo). -/
def poolStep (fails : α → Bool) (cap : Nat) (batch : Int)
    (hasProgress hasError : Bool) (st : PoolState α) (item : α) :
    Option (PoolState α) :=
  let st1 : PoolState α := { st with processCalls := st.processCalls + 1 }
  let st2 : PoolState α :=
    if fails item then
      if st1.errList.length < cap then
        { st1 with errList := st1.errList ++ [item],
                   errorCalls := st1.errorCalls + (if hasError then 1 else 0) }
      else
        { st1 with errorCalls := st1.errorCalls + (if hasError then 2 else 0) }
    else st1
  let p := st2.processed + 1
  let st3 : PoolState α := { st2 with processed := p }
  if hasProgress then
    match goMod p batch with
    | none => none
    | some r =>
        some (if r = 0 then
                { st3 with progressCalls := st3.progressCalls ++ [p] }
              else st3)
  else some st3

/-- A whole run of the worker pool over the items in the order the worker
bodies execute them; none models a panic crashing the run. -/
def runPool (fails : α → Bool) (cap : Nat) (batch : Int)
    (hasProgress hasError : Bool) :
    PoolState α → List α → Option (PoolState α)
  | st, [] => some st
  | st, x :: xs =>
      match poolStep fails cap batch hasProgress hasError st x with
      | none => none
      | some st2 => runPool fails cap batch hasProgress hasError st2 xs

/-- The processed counts in (c, c+n] at which the progress notifier fires:
the counts whose Go remainder by the batch size is zero, in increasing
order. -/
def multiplesIn (batch : Int) : Nat → Nat → List Nat
  | _, 0 => []
  | c, n + 1 =>
      (if Int.tmod ((c + 1 : Nat) : Int) batch = 0 then [c + 1] else []) ++
        multiplesIn batch (c + 1) n

/-- ParallelQueue (src/pqueue.go lines 10-22); the process function is
modelled by its failure predicate (true = returns a non-nil error), the
two notifiers by whether they are set. -/
structure ParallelQueue (α : Type) where
  items : Option (List α)
  numberOfWorkers : Int
  processFunc : Option (α → Bool)
  progressBatch : Int
  progressFunc : Bool
  errorFunc : Bool

/-- NewParallelQueue (src/pqueue.go lines 25-30): progressBatch defaults
to 100, everything else unset. -/
def NewParallelQueue (α : Type) (numberOfWorkers : Int) : ParallelQueue α :=
  { items := none, numberOfWorkers := numberOfWorkers, processFunc := none,
    progressBatch := 100, progressFunc := false, errorFunc := false }

def ParallelQueue.WithItems (c : ParallelQueue α) (items : Option (List α)) :
    ParallelQueue α :=
  { c with items := items }

def ParallelQueue.OnProcessItem (c : ParallelQueue α) (f : α → Bool) :
    ParallelQueue α :=
  { c with processFunc := some f }

def ParallelQueue.WithProgressNotifier (c : ParallelQueue α) (batch : Int)
    (hasF : Bool) : ParallelQueue α :=
  { c with progressFunc := hasF, progressBatch := batch }

def ParallelQueue.WithErrorNotifier (c : ParallelQueue α) (hasF : Bool) :
    ParallelQueue α :=
  { c with errorFunc := hasF }

/-- ParallelQueue.Process (src/pqueue.go lines 61-149): the three
configuration checks run before any worker starts; the error channel is
created with capacity len(*c.items); after all workers finish the channel
is drained into erroredItems and a summary error naming the count is
returned when any item failed. The perm argument is the order in which
the worker bodies execute the items. -/
def ParallelQueue.Process (c : ParallelQueue α) (perm : List α) :
    Option (List α × Option PoolError × PoolState α) :=
  if c.numberOfWorkers ≤ 0 then
    some ([], some .workersMustBePositive, initPool α)
  else
    match c.items with
    | none => some ([], some .itemsMustBeNonEmpty, initPool α)
    | some l =>
        if l.length = 0 then some ([], some .itemsMustBeNonEmpty, initPool α)
        else
          match c.processFunc with
          | none => some ([], some .processFuncMustBeSet, initPool α)
          | some f =>
              match runPool f l.length c.progressBatch c.progressFunc
                  c.errorFunc (initPool α) perm with
              | none => none
              | some st =>
                  some (st.errList,
                        if st.errList.length > 0 then
                          some (.encounteredErrors st.errList.length)
                        else none,
                        st)

/-- The producer loop of ParallelFileProcessor.Process
(src/file_processor.go lines 130-152): bufio ReadBytes reads up to and
including a line feed; the accumulated bytes are sent with the trailing
delimiter stripped; when the reader ends (EOF) before a delimiter the
loop breaks, so bytes after the last line feed are never delivered. -/
def readLinesAux : List Nat → List Nat → List (List Nat)
  | _, [] => []
  | acc, b :: rest =>
      if b = 10 then acc :: readLinesAux [] rest
      else readLinesAux (acc ++ [b]) rest

/-- The lines a file's byte content yields to the workers. -/
def readLines (content : List Nat) : List (List Nat) :=
  readLinesAux [] content

/-- ParallelFileProcessor (src/file_processor.go lines 13-25); file bytes
are Nats, the process-line function is modelled by its failure predicate. -/
structure ParallelFileProcessor where
  filePath : String
  numberOfWorkers : Int
  processLineFunc : Option (List Nat → Bool)
  progressBatch : Int
  progressFunc : Bool
  errorFunc : Bool

/-- NewParallelFileProcessor (src/file_processor.go lines 28-33). -/
def NewParallelFileProcessor (numberOfWorkers : Int) : ParallelFileProcessor :=
  { filePath := "", numberOfWorkers := numberOfWorkers,
    processLineFunc := none, progressBatch := 100, progressFunc := false,
    errorFunc := false }

def ParallelFileProcessor.WithFilePath (c : ParallelFileProcessor)
    (filePath : String) : ParallelFileProcessor :=
  { c with filePath := filePath }

def ParallelFileProcessor.OnProcessLine (c : ParallelFileProcessor)
    (f : List Nat → Bool) : ParallelFileProcessor :=
  { c with processLineFunc := some f }

def ParallelFileProcessor.WithProgressNotifier (c : ParallelFileProcessor)
    (batch : Int) (hasF : Bool) : ParallelFileProcessor :=
  { c with progressFunc := hasF, progressBatch := batch }

def ParallelFileProcessor.WithErrorNotifier (c : ParallelFileProcessor)
    (hasF : Bool) : ParallelFileProcessor :=
  { c with errorFunc := hasF }

/-- ParallelFileProcessor.Process (src/file_processor.go lines 64-166):
the three configuration checks and the file open run before any worker
starts; the error channel is created with capacity p.numberOfWorkers
(src/file_processor.go line 86), not the number of lines. fs models the
file system (none = os.Open fails); perm is the order in which the worker
bodies execute the produced lines, a permutation of readLines of the
file's content. -/
def ParallelFileProcessor.Process (c : ParallelFileProcessor)
    (fs : String → Option (List Nat)) (perm : List (List Nat)) :
    Option (List (List Nat) × Option PoolError × PoolState (List Nat)) :=
  if c.numberOfWorkers ≤ 0 then
    some ([], some .workersMustBePositive, initPool _)
  else if c.filePath = "" then
    some ([], some .filePathMustBeSet, initPool _)
  else
    match c.processLineFunc with
    | none => some ([], some .processLineFuncMustBeSet, initPool _)
    | some f =>
        match fs c.filePath with
        | none => some ([], some .failedToOpenFile, initPool _)
        | some _ =>
            match runPool f c.numberOfWorkers.toNat c.progressBatch
                c.progressFunc c.errorFunc (initPool _) perm with
            | none => none
            | some st =>
                some (st.errList,
                      if st.errList.length > 0 then
                        some (.encounteredErrors st.errList.length)
                      else none,
                      st)

/-! ### Lemmas about the sequential composer -/

lemma seqLoop_append (pre : List PipelineStep) :
    ∀ (rest : List PipelineStep) (v : Option GoVal) (e : Option GoError)
      (st : Option GoVal × Option GoError),
      noExitAlong pre (v, e) = true →
      threadSteps pre (v, e) = Except.ok st →
      seqLoop (pre ++ rest) v e e = seqLoop rest st.1 st.2 st.2 := by
  induction pre with
  | nil =>
      intro rest v e st _ hst
      simp only [threadSteps, Except.ok.injEq] at hst
      subst hst
      simp
  | cons s pre ih =>
      intro rest v e st h hst
      simp only [noExitAlong] at h
      simp only [threadSteps] at hst
      cases hsv : s v e with
      | error p => rw [hsv] at hst; exact absurd hst (by simp)
      | ok out =>
          obtain ⟨v2, e2⟩ := out
          rw [hsv] at h hst
          simp only [Bool.and_eq_true, Bool.not_eq_true'] at h
          simp only [List.cons_append, seqLoop, hsv, h.1]
          exact ih rest v2 e2 st h.2 hst

lemma threadSteps_noExit (pre : List PipelineStep) :
    ∀ (v : Option GoVal) (e : Option GoError)
      (st : Option GoVal × Option GoError),
      noExitAlong pre (v, e) = true →
      threadSteps pre (v, e) = Except.ok st →
      isExitOpt e = false →
      isExitOpt st.2 = false := by
  induction pre with
  | nil =>
      intro v e st _ hst he
      simp only [threadSteps, Except.ok.injEq] at hst
      subst hst
      exact he
  | cons s pre ih =>
      intro v e st h hst he
      simp only [noExitAlong] at h
      simp only [threadSteps] at hst
      cases hsv : s v e with
      | error p => rw [hsv] at hst; exact absurd hst (by simp)
      | ok out =>
          obtain ⟨v2, e2⟩ := out
          rw [hsv] at h hst
          simp only [Bool.and_eq_true, Bool.not_eq_true'] at h
          exact ih v2 e2 st h.2 hst h.1

lemma seqLoop_eq_thread (steps : List PipelineStep) :
    ∀ (v : Option GoVal) (e : Option GoError),
      noExitAlong steps (v, e) = true →
      seqLoop steps v e e = threadSteps steps (v, e) := by
  induction steps with
  | nil => intro v e _; rfl
  | cons s rest ih =>
      intro v e h
      simp only [noExitAlong] at h
      cases hsv : s v e with
      | error p => simp [seqLoop, threadSteps, hsv]
      | ok out =>
          obtain ⟨v2, e2⟩ := out
          rw [hsv] at h
          simp only [Bool.and_eq_true, Bool.not_eq_true'] at h
          simp only [seqLoop, threadSteps, hsv, h.1]
          simpa using ih v2 e2 h.2

lemma pure_noExit (fs : List (Option GoVal → Option GoVal)) :
    ∀ (v : Option GoVal) (e : Option GoError), isExitOpt e = false →
      noExitAlong (fs.map pureStep) (v, e) = true := by
  induction fs with
  | nil => intro v e _; rfl
  | cons f fs ih =>
      intro v e he
      simp only [List.map_cons, noExitAlong, pureStep, he, Bool.not_false,
        Bool.true_and]
      exact ih (f v) e he

lemma pure_thread (fs : List (Option GoVal → Option GoVal)) :
    ∀ (v : Option GoVal) (e : Option GoError),
      threadSteps (fs.map pureStep) (v, e) =
        Except.ok (fs.foldl (fun acc f => f acc) v, e) := by
  induction fs with
  | nil => intro v e; rfl
  | cons f fs ih =>
      intro v e
      simp only [List.map_cons, threadSteps, pureStep, List.foldl_cons]
      exact ih (f v) e

/-! ### Lemmas about the parallel composer -/

@[simp] lemma getPanic_ok (x : Option GoVal × Option GoError) :
    getPanic (.ok x) = none := rfl

@[simp] lemma getPanic_error (p : GoPanic) : getPanic (.error p) = some p := rfl

@[simp] lemma getErr_ok_none (v : Option GoVal) :
    getErr (.ok (v, none)) = none := rfl

@[simp] lemma getErr_ok_some (v : Option GoVal) (e : GoError) :
    getErr (.ok (v, some e)) = some e := rfl

@[simp] lemma getErr_error (p : GoPanic) : getErr (.error p) = none := rfl

@[simp] lemma getOut_ok_none (v : Option GoVal) :
    getOut (.ok (v, none)) = v := rfl

lemma map_eq_of_forall2 (input : Option GoVal) (err : Option GoError)
    (steps : List PipelineStep) (outs : List (Option GoVal))
    (h : List.Forall₂ (fun s o => s input err = Except.ok (o, none)) steps outs) :
    steps.map (fun s => s input err) =
      outs.map (fun o => (Except.ok (o, none) : StepResult)) := by
  induction h with
  | nil => rfl
  | cons hrel _ ih => simp only [List.map_cons, hrel, ih]

lemma par_aux (outs : List (Option GoVal)) :
    (outs.map (fun o => (Except.ok (o, none) : StepResult))).filterMap getPanic
      = []
    ∧ (outs.map (fun o => (Except.ok (o, none) : StepResult))).filterMap getErr
      = []
    ∧ (outs.map (fun o => (Except.ok (o, none) : StepResult))).map getOut
      = outs := by
  induction outs with
  | nil => exact ⟨rfl, rfl, rfl⟩
  | cons o os ih =>
      obtain ⟨h1, h2, h3⟩ := ih
      refine ⟨?_, ?_, ?_⟩
      · simp [List.filterMap_cons, h1]
      · simp [List.filterMap_cons, h2]
      · simpa [List.map_cons] using h3

/-! ### Claim theorems for the pipeline layer -/

/-- C8: for steps none of which returns an exit-matching error, InSequence
equals the left-to-right fold threading each step's (value, error) output
into the next; zero steps return the incoming (input, error) unchanged;
non-exit errors are passed along without halting (they are just threaded by
the fold); for pure lifted steps the result is ordinary function
composition applied to the initial input with the error untouched. -/
theorem inSequence_is_fold (steps : List PipelineStep)
    (fs : List (Option GoVal → Option GoVal))
    (input : Option GoVal) (err : Option GoError)
    (h : noExitAlong steps (input, err) = true)
    (hin : isExitOpt err = false) :
    InSequence steps input err = threadSteps steps (input, err)
    ∧ InSequence [] input err = Except.ok (input, err)
    ∧ InSequence (fs.map pureStep) input err =
        Except.ok (fs.foldl (fun acc f => f acc) input, err) := by
  refine ⟨seqLoop_eq_thread steps input err h, rfl, ?_⟩
  show seqLoop (fs.map pureStep) input err err = _
  rw [seqLoop_eq_thread _ _ _ (pure_noExit fs input err hin), pure_thread]

theorem inSequence_is_fold_witness :
    InSequence [pureStep id] none none = threadSteps [pureStep id] (none, none)
    ∧ InSequence [] none none = Except.ok (none, none)
    ∧ InSequence ([id].map pureStep) none none =
        Except.ok ([id].foldl (fun acc f => f acc) none, none) :=
  inSequence_is_fold [pureStep id] [id] none none rfl rfl

/-- C2 counterexample: when the incoming error itself matches the exit
signal and the first step returns the exit signal, InSequence returns that
exit-matching error value to the caller, so the claim's conjunct that the
exit-signal error value is never the error returned to the caller fails. -/
theorem inSequence_exit_surfaced_counterexample :
    InSequence [ExitOnErrorStep] none (some GoError.exit) =
      Except.ok (none, some GoError.exit)
    ∧ GoError.exit.isExit = true :=
  ⟨rfl, rfl⟩

/-- C2 (amended): provided the incoming error does not itself match the
exit signal — if the steps before position i return no exit-matching error
and step i returns an exit-matching error, InSequence returns (nil, e)
where e is the error produced by step i-1 (the incoming error when i = 1),
the result does not depend on the steps after i, and the returned error
never matches the exit signal. -/
theorem inSequence_exit_returns_previous_error
    (pre post : List PipelineStep) (s : PipelineStep)
    (input : Option GoVal) (err : Option GoError)
    (st out : Option GoVal × Option GoError)
    (hpre : noExitAlong pre (input, err) = true)
    (hst : threadSteps pre (input, err) = Except.ok st)
    (hs : s st.1 st.2 = Except.ok out)
    (hexit : isExitOpt out.2 = true)
    (hin : isExitOpt err = false) :
    InSequence (pre ++ s :: post) input err = Except.ok (none, st.2)
    ∧ isExitOpt st.2 = false := by
  constructor
  · show seqLoop (pre ++ s :: post) input err err = _
    rw [seqLoop_append pre (s :: post) input err st hpre hst]
    obtain ⟨o, e2⟩ := out
    simp only [seqLoop, hs]
    simp only at hexit
    simp [hexit]
  · exact threadSteps_noExit pre input err st hpre hst hin

theorem inSequence_exit_returns_previous_error_witness :
    InSequence
        ([fun v _ => Except.ok (v, some (GoError.base "boom"))] ++
          ExitOnErrorStep :: []) none none =
      Except.ok (none, some (GoError.base "boom"))
    ∧ isExitOpt (some (GoError.base "boom")) = false :=
  inSequence_exit_returns_previous_error
    [fun v _ => Except.ok (v, some (GoError.base "boom"))] [] ExitOnErrorStep
    none none (none, some (GoError.base "boom")) (none, some GoError.exit)
    rfl rfl rfl rfl rfl

/-- C3: with at least one step and no branch returning a non-nil error,
InParallel returns the slice whose element at index i is the output of
step i on the shared (input, lastErr) — indexed by declaration order —
with a nil error; and with zero steps it returns (nil, nil). -/
theorem inParallel_ordered_results (sched : Nat) (steps : List PipelineStep)
    (outs : List (Option GoVal)) (input : Option GoVal) (err : Option GoError)
    (hne : steps ≠ [])
    (h : List.Forall₂ (fun s o => s input err = Except.ok (o, none))
      steps outs) :
    InParallel sched steps input err =
      Except.ok (some (.vslice outs), none)
    ∧ InParallel sched [] input err = Except.ok (none, none) := by
  refine ⟨?_, rfl⟩
  cases steps with
  | nil => exact absurd rfl hne
  | cons t ts =>
      have hmap := map_eq_of_forall2 input err (t :: ts) outs h
      obtain ⟨h1, h2, h3⟩ := par_aux outs
      simp only [InParallel, hmap, h1, h2, h3]

theorem inParallel_ordered_results_witness :
    InParallel 0 [pureStep id, pureStep (fun _ => some (.vint 7))]
        (some (.vint 1)) none =
      Except.ok (some (.vslice [some (.vint 1), some (.vint 7)]), none)
    ∧ InParallel 0 [] (some (.vint 1)) none = Except.ok (none, none) :=
  inParallel_ordered_results 0
    [pureStep id, pureStep (fun _ => some (.vint 7))]
    [some (.vint 1), some (.vint 7)] (some (.vint 1)) none
    (by simp)
    (List.Forall₂.cons rfl (List.Forall₂.cons rfl List.Forall₂.nil))

/-- C4: the claim (and the code's own doc comment, "If any parallel step
returns an error, the InParallel step will return the first error
encountered", together with its tests) demands that a branch error is
always returned, but the final select at src/pipeline.go lines 127-132
races the buffered error channel against the completion signal: when
every branch has finished before the coordinator executes the select —
always reachable, and immediate for fast-failing branches — both cases
are ready and Go picks uniformly at random, so the run can return the
results slice (with nil at the errored index) and a nil error despite a
branch error. At the one-failing-branch input, the error-first schedule
returns the branch error as claimed while the done-first schedule
returns (results, nil), losing the error. -/
theorem inParallel_select_race_bug :
    InParallel 0 [errStepX] none none =
      Except.ok (none, some (GoError.base "x"))
    ∧ InParallel 1 [errStepX] none none =
      Except.ok (some (.vslice [none]), none) := ⟨rfl, rfl⟩

/-- C9: AssertIn substitutes the zero value of the expected type for a nil
input and the wrapped step runs on it; a non-nil input of a mismatching
runtime type makes the call panic with a message naming the expected and
actual types instead of returning an error; and neither InSequence nor
InParallel converts such a panic into a returned error — the panic
propagates out of both composers. -/
theorem assertIn_zero_and_panic (T : GoTy) (w : GoVal)
    (f : GoVal → Option GoError → Option GoVal × Option GoError)
    (err : Option GoError)
    (pre post : List PipelineStep) (s : PipelineStep)
    (input : Option GoVal) (e0 : Option GoError)
    (st : Option GoVal × Option GoError) (pa : GoPanic)
    (sched : Nat) (steps : List PipelineStep)
    (hty : w.ty ≠ T)
    (hpre : noExitAlong pre (input, e0) = true)
    (hst : threadSteps pre (input, e0) = Except.ok st)
    (hs : s st.1 st.2 = Except.error pa)
    (hmem : s ∈ steps) (hpan : s input e0 = Except.error pa) :
    AssertIn T none = Except.ok (zeroOf T)
    ∧ AsPipelineStep T f none err = Except.ok (f (zeroOf T) err)
    ∧ AssertIn T (some w) =
        Except.error { expected := tyName T, actual := tyName w.ty }
    ∧ InSequence (pre ++ s :: post) input e0 = Except.error pa
    ∧ (∃ q, InParallel sched steps input e0 = Except.error q) := by
  refine ⟨rfl, rfl, ?_, ?_, ?_⟩
  · simp [AssertIn, hty]
  · show seqLoop (pre ++ s :: post) input e0 e0 = _
    rw [seqLoop_append pre (s :: post) input e0 st hpre hst]
    simp [seqLoop, hs]
  · cases steps with
    | nil => cases hmem
    | cons t ts =>
        have hpmem : pa ∈ ((t :: ts).map (fun u => u input e0)).filterMap
            getPanic := by
          refine List.mem_filterMap.mpr ⟨s input e0, ?_, ?_⟩
          · exact List.mem_map_of_mem _ hmem
          · rw [hpan]; rfl
        obtain ⟨x, xs, hxs⟩ : ∃ x xs,
            ((t :: ts).map (fun u => u input e0)).filterMap getPanic
              = x :: xs := by
          cases hfm : ((t :: ts).map (fun u => u input e0)).filterMap
              getPanic with
          | nil => rw [hfm] at hpmem; cases hpmem
          | cons x xs => exact ⟨x, xs, rfl⟩
        exact ⟨pickPanic sched x xs, by simp only [InParallel, hxs]⟩

theorem assertIn_zero_and_panic_witness :
    AssertIn .tint none = Except.ok (zeroOf .tint)
    ∧ AsPipelineStep .tint (fun v e => (some v, e)) none none =
        Except.ok ((fun (v : GoVal) (e : Option GoError) => (some v, e))
          (zeroOf .tint) none)
    ∧ AssertIn .tint (some (.vstr "a")) =
        Except.error { expected := tyName .tint,
                       actual := tyName (GoVal.vstr "a").ty }
    ∧ InSequence
        ([] ++ AsPipelineStep .tint (fun v e => (some v, e)) :: [])
        (some (.vstr "a")) none =
        Except.error { expected := "int", actual := "string" }
    ∧ (∃ q, InParallel 0 [AsPipelineStep .tint (fun v e => (some v, e))]
        (some (.vstr "a")) none = Except.error q) :=
  assertIn_zero_and_panic .tint (.vstr "a") (fun v e => (some v, e)) none
    [] [] (AsPipelineStep .tint (fun v e => (some v, e)))
    (some (.vstr "a")) none (some (.vstr "a"), none)
    { expected := "int", actual := "string" } 0
    [AsPipelineStep .tint (fun v e => (some v, e))]
    (by decide) rfl rfl rfl (List.mem_singleton.mpr rfl) rfl

/-! ### Lemmas about the worker-pool engine -/

lemma poolStep_ok_eq {α : Type} (f : α → Bool) (cap : Nat) (batch : Int)
    (hasProgress hasError : Bool) (st : PoolState α) (x : α)
    (hb : hasProgress = false ∨ batch ≠ 0) :
    poolStep f cap batch hasProgress hasError st x =
      some { st with
        processCalls := st.processCalls + 1,
        errList := st.errList ++
          (if f x = true ∧ st.errList.length < cap then [x] else []),
        errorCalls := st.errorCalls +
          (if f x = true then
            (if st.errList.length < cap then (if hasError then 1 else 0)
             else (if hasError then 2 else 0))
           else 0),
        processed := st.processed + 1,
        progressCalls := st.progressCalls ++
          (if hasProgress = true ∧
              Int.tmod ((st.processed + 1 : Nat) : Int) batch = 0
           then [st.processed + 1] else []) } := by
  cases hasProgress with
  | false =>
      by_cases hf : f x
      · by_cases hlen : st.errList.length < cap
        · simp [poolStep, hf, hlen]
        · simp [poolStep, hf, hlen]
      · simp [poolStep, hf]
  | true =>
      have hbz : batch ≠ 0 := by
        cases hb with
        | inl h => exact absurd h (by simp)
        | inr h => exact h
      by_cases hf : f x <;> by_cases hlen : st.errList.length < cap <;>
        by_cases hmod : Int.tmod ((st.processed : Int) + 1) batch = 0 <;>
        simp [poolStep, goMod, hbz, hf, hlen, hmod]

lemma runPool_ok {α : Type} (f : α → Bool) (cap : Nat) (batch : Int)
    (hasProgress hasError : Bool) (hb : hasProgress = false ∨ batch ≠ 0) :
    ∀ (xs : List α) (st : PoolState α),
      ∃ st2, runPool f cap batch hasProgress hasError st xs = some st2
        ∧ st2.processed = st.processed + xs.length
        ∧ st2.processCalls = st.processCalls + xs.length
        ∧ st2.errList =
            st.errList ++ (xs.filter f).take (cap - st.errList.length)
        ∧ st2.progressCalls = st.progressCalls ++
            (if hasProgress = true
             then multiplesIn batch st.processed xs.length else []) := by
  intro xs
  induction xs with
  | nil =>
      intro st
      exact ⟨st, rfl, rfl, by simp, by simp, by simp [multiplesIn]⟩
  | cons x xs ih =>
      intro st
      rw [runPool, poolStep_ok_eq f cap batch hasProgress hasError st x hb]
      obtain ⟨st2, hrun, hp, hc, he, hg⟩ := ih _
      refine ⟨st2, hrun, ?_, ?_, ?_, ?_⟩
      · rw [hp]; simp; omega
      · rw [hc]; simp; omega
      · rw [he]
        by_cases hf : f x
        · by_cases hlen : st.errList.length < cap
          · have harith : cap - st.errList.length =
                (cap - (st.errList.length + 1)) + 1 := by omega
            simp only [hf, hlen, and_self, if_true, true_and]
            rw [List.filter_cons_of_pos (by simp [hf]), harith,
              List.take_succ_cons]
            simp
          · have h0 : cap - st.errList.length = 0 := by omega
            simp only [hf, hlen, and_false, if_false, true_and]
            rw [List.filter_cons_of_pos (by simp [hf]), h0, List.take_zero]
            simp [h0]
        · simp only [hf, false_and, if_false]
          rw [List.filter_cons_of_neg (by simp [hf])]
          simp
      · rw [hg]
        cases hasProgress with
        | false => simp
        | true =>
            simp only [true_and, List.length_cons]
            rw [multiplesIn]
            simp [List.append_assoc]

lemma multiplesIn_count (batch : Int) :
    ∀ (n c p : Nat),
      (multiplesIn batch c n).count p =
        if c < p ∧ p ≤ c + n ∧ Int.tmod (p : Int) batch = 0 then 1 else 0 := by
  intro n
  induction n with
  | zero =>
      intro c p
      have hno : ¬(c < p ∧ p ≤ c + 0 ∧ Int.tmod (p : Int) batch = 0) := by
        rintro ⟨h1, h2, -⟩
        omega
      rw [multiplesIn, if_neg hno]
      rfl
  | succ n ih =>
      intro c p
      rw [multiplesIn, List.count_append, ih (c + 1) p]
      by_cases hp : p = c + 1
      · subst hp
        rw [if_neg (by rintro ⟨h1, -⟩; omega :
          ¬(c + 1 < c + 1 ∧ c + 1 ≤ c + 1 + n ∧
            Int.tmod ((c + 1 : Nat) : Int) batch = 0))]
        by_cases hm : Int.tmod ((c + 1 : Nat) : Int) batch = 0
        · rw [if_pos hm, if_pos ⟨by omega, by omega, hm⟩,
            List.count_singleton']
          simp
        · rw [if_neg hm, if_neg (by rintro ⟨-, -, h3⟩; exact hm h3)]
          rfl
      · have hcount : (List.count p
            (if Int.tmod ((c + 1 : Nat) : Int) batch = 0
             then [c + 1] else [])) = 0 := by
          split_ifs
          · rw [List.count_singleton',
              if_neg (show ¬(c + 1 = p) from fun h => hp h.symm)]
          · rfl
        rw [hcount]
        by_cases hple : p ≤ c + 1 + n
        · by_cases hcp : c + 1 < p
          · by_cases hmp : Int.tmod (p : Int) batch = 0
            · rw [if_pos ⟨hcp, hple, hmp⟩, if_pos ⟨by omega, by omega, hmp⟩]
            · rw [if_neg (by rintro ⟨-, -, h3⟩; exact hmp h3),
                if_neg (by rintro ⟨-, -, h3⟩; exact hmp h3)]
          · rw [if_neg (by rintro ⟨h1, -⟩; omega),
              if_neg (by rintro ⟨h1, -⟩; omega)]
        · rw [if_neg (by rintro ⟨-, h2, -⟩; omega),
            if_neg (by rintro ⟨-, h2, -⟩; omega)]

lemma readLinesAux_no_nl (tail : List Nat) :
    ∀ acc, 10 ∉ tail → readLinesAux acc tail = [] := by
  induction tail with
  | nil => intro acc _; rfl
  | cons b rest ih =>
      intro acc h
      have hb : ¬(b = 10) := by
        intro hb
        exact h (by simp [hb])
      simp only [readLinesAux, hb, if_false]
      exact ih _ (fun hm => h (List.mem_cons_of_mem _ hm))

lemma readLinesAux_line (line : List Nat) :
    ∀ (acc rest : List Nat), 10 ∉ line →
      readLinesAux acc (line ++ 10 :: rest) =
        (acc ++ line) :: readLinesAux [] rest := by
  induction line with
  | nil =>
      intro acc rest _
      simp [readLinesAux]
  | cons b bs ih =>
      intro acc rest h
      have hb : ¬(b = 10) := by
        intro hb
        exact h (by simp [hb])
      simp only [List.cons_append, readLinesAux, hb, if_false, List.append_eq]
      rw [ih (acc ++ [b]) rest (fun hm => h (List.mem_cons_of_mem _ hm))]
      simp

lemma readLines_join (ls : List (List Nat)) :
    ∀ (tail : List Nat), (∀ l ∈ ls, 10 ∉ l) → 10 ∉ tail →
      readLines ((ls.map (fun l => l ++ [10])).flatten ++ tail) = ls := by
  induction ls with
  | nil =>
      intro tail _ ht
      simp only [List.map_nil, List.flatten, List.nil_append]
      exact readLinesAux_no_nl tail [] ht
  | cons l ls ih =>
      intro tail hm ht
      have hshape : ((l :: ls).map (fun a => a ++ [10])).flatten ++ tail =
          l ++ 10 :: ((ls.map (fun a => a ++ [10])).flatten ++ tail) := by
        simp
      rw [readLines, hshape,
        readLinesAux_line l [] _ (hm l (List.mem_cons_self _ _))]
      simp only [List.nil_append, List.cons.injEq, true_and]
      exact ih tail (fun a ha => hm a (List.mem_cons_of_mem _ ha)) ht

/-! ### Claim theorems for the worker-pool layer -/

/-- C5: every configuration violating a precondition — non-positive worker
count, nil/empty items or unset file path or unopenable file, unset process
function — makes Process return the matching descriptive configuration
error with an empty error-set and the untouched initial trace: the process
function, progress notifier and error notifier are never invoked and no
worker or producer ever runs. -/
theorem pool_config_errors (α : Type) (q : ParallelQueue α)
    (p : ParallelFileProcessor) (fs : String → Option (List Nat))
    (perm : List α) (permF : List (List Nat)) :
    (q.numberOfWorkers ≤ 0 →
      q.Process perm = some ([], some .workersMustBePositive, initPool α))
    ∧ (0 < q.numberOfWorkers → (q.items = none ∨ q.items = some []) →
      q.Process perm = some ([], some .itemsMustBeNonEmpty, initPool α))
    ∧ (0 < q.numberOfWorkers → (∃ l, q.items = some l ∧ l ≠ []) →
      q.processFunc = none →
      q.Process perm = some ([], some .processFuncMustBeSet, initPool α))
    ∧ (p.numberOfWorkers ≤ 0 →
      p.Process fs permF =
        some ([], some .workersMustBePositive, initPool (List Nat)))
    ∧ (0 < p.numberOfWorkers → p.filePath = "" →
      p.Process fs permF =
        some ([], some .filePathMustBeSet, initPool (List Nat)))
    ∧ (0 < p.numberOfWorkers → p.filePath ≠ "" → p.processLineFunc = none →
      p.Process fs permF =
        some ([], some .processLineFuncMustBeSet, initPool (List Nat)))
    ∧ (0 < p.numberOfWorkers → p.filePath ≠ "" → p.processLineFunc ≠ none →
      fs p.filePath = none →
      p.Process fs permF =
        some ([], some .failedToOpenFile, initPool (List Nat))) := by
  refine ⟨?_, ?_, ?_, ?_, ?_, ?_, ?_⟩
  · intro hw
    simp [ParallelQueue.Process, hw]
  · intro hw hitems
    have hnw : ¬(q.numberOfWorkers ≤ 0) := not_le.mpr hw
    cases hitems with
    | inl h => simp [ParallelQueue.Process, hnw, h]
    | inr h => simp [ParallelQueue.Process, hnw, h]
  · rintro hw ⟨l, hl, hlne⟩ hpf
    have hnw : ¬(q.numberOfWorkers ≤ 0) := not_le.mpr hw
    have hlen : ¬(l.length = 0) := by simpa [List.length_eq_zero] using hlne
    simp [ParallelQueue.Process, hnw, hl, hlen, hpf]
  · intro hw
    simp [ParallelFileProcessor.Process, hw]
  · intro hw hpath
    have hnw : ¬(p.numberOfWorkers ≤ 0) := not_le.mpr hw
    simp [ParallelFileProcessor.Process, hnw, hpath]
  · intro hw hpath hpf
    have hnw : ¬(p.numberOfWorkers ≤ 0) := not_le.mpr hw
    simp [ParallelFileProcessor.Process, hnw, hpath, hpf]
  · intro hw hpath hpf hopen
    have hnw : ¬(p.numberOfWorkers ≤ 0) := not_le.mpr hw
    obtain ⟨f, hf⟩ := Option.ne_none_iff_exists'.mp hpf
    simp [ParallelFileProcessor.Process, hnw, hpath, hf, hopen]

theorem pool_config_errors_witness :
    (NewParallelQueue Int 0).Process [] =
      some ([], some .workersMustBePositive, initPool Int)
    ∧ (NewParallelQueue Int 1).Process [] =
      some ([], some .itemsMustBeNonEmpty, initPool Int)
    ∧ ((NewParallelQueue Int 1).WithItems (some [5])).Process [] =
      some ([], some .processFuncMustBeSet, initPool Int)
    ∧ (NewParallelFileProcessor 0).Process (fun _ => none) [] =
      some ([], some .workersMustBePositive, initPool (List Nat))
    ∧ (NewParallelFileProcessor 1).Process (fun _ => none) [] =
      some ([], some .filePathMustBeSet, initPool (List Nat))
    ∧ ((NewParallelFileProcessor 1).WithFilePath "f").Process
        (fun _ => none) [] =
      some ([], some .processLineFuncMustBeSet, initPool (List Nat))
    ∧ (((NewParallelFileProcessor 1).WithFilePath "f").OnProcessLine
        (fun _ => false)).Process (fun _ => none) [] =
      some ([], some .failedToOpenFile, initPool (List Nat)) := by
  refine ⟨?_, ?_, ?_, ?_, ?_, ?_, ?_⟩
  · exact (pool_config_errors Int (NewParallelQueue Int 0)
      (NewParallelFileProcessor 1) (fun _ => none) [] []).1 (by decide)
  · exact (pool_config_errors Int (NewParallelQueue Int 1)
      (NewParallelFileProcessor 1) (fun _ => none) [] []).2.1
      (by decide) (Or.inl rfl)
  · exact (pool_config_errors Int
      ((NewParallelQueue Int 1).WithItems (some [5]))
      (NewParallelFileProcessor 1) (fun _ => none) [] []).2.2.1
      (by decide) ⟨[5], rfl, by decide⟩ rfl
  · exact (pool_config_errors Int (NewParallelQueue Int 1)
      (NewParallelFileProcessor 0) (fun _ => none) [] []).2.2.2.1 (by decide)
  · exact (pool_config_errors Int (NewParallelQueue Int 1)
      (NewParallelFileProcessor 1) (fun _ => none) [] []).2.2.2.2.1
      (by decide) rfl
  · exact (pool_config_errors Int (NewParallelQueue Int 1)
      ((NewParallelFileProcessor 1).WithFilePath "f") (fun _ => none)
      [] []).2.2.2.2.2.1 (by decide) (by decide) rfl
  · exact (pool_config_errors Int (NewParallelQueue Int 1)
      (((NewParallelFileProcessor 1).WithFilePath "f").OnProcessLine
        (fun _ => false)) (fun _ => none) [] []).2.2.2.2.2.2
      (by decide) (by decide) (Option.some_ne_none _) rfl

/-- C1 counterexample: the file processor's failure channel has capacity
equal to the worker count, not the line count: a file with three failing
lines processed by one worker yields an error-set of one line and a
summary error naming 1, not the claimed K = 3. -/
theorem file_error_channel_counterexample :
    readLines [97, 10, 98, 10, 99, 10] = [[97], [98], [99]]
    ∧ (((NewParallelFileProcessor 1).WithFilePath "f").OnProcessLine
        (fun _ => true)).Process (fun _ => some [97, 10, 98, 10, 99, 10])
        [[97], [98], [99]]
      = some ([[97]], some (.encounteredErrors 1),
          { errList := [[97]], processed := 3, processCalls := 3,
            progressCalls := [], errorCalls := 0 })
    ∧ (1 : Nat) ≠ 3 := ⟨rfl, rfl, by decide⟩

/-- C1 (amended): the in-memory queue creates the failure channel with
capacity equal to the total item count, so a run with K failing items
returns an error-set of exactly K items and a summary error naming K (and
a nil error when K = 0); the file processor instead creates it with
capacity equal to the worker count W, so a run with K failing lines
returns the error-set truncated to min W K lines and a summary naming
min W K. -/
theorem error_channel_capacity (α : Type) (w : Int) (l : List α)
    (f : α → Bool) (perm : List α)
    (wF : Int) (path : String) (content : List Nat)
    (ff : List Nat → Bool) (fs : String → Option (List Nat))
    (permF : List (List Nat))
    (hw : 0 < w) (hl : l ≠ []) (hperm : perm.Perm l)
    (hwF : 0 < wF) (hpath : path ≠ "") (hfs : fs path = some content)
    (hpermF : permF.Perm (readLines content)) :
    (∃ st,
      (((NewParallelQueue α w).WithItems (some l)).OnProcessItem f).Process
        perm = some (perm.filter f,
          if (l.filter f).length = 0 then none
          else some (.encounteredErrors ((l.filter f).length)), st))
    ∧ (perm.filter f).length = (l.filter f).length
    ∧ (∃ st,
      ((((NewParallelFileProcessor wF).WithFilePath path).OnProcessLine
        ff).Process fs permF) = some ((permF.filter ff).take wF.toNat,
          if min wF.toNat ((readLines content).filter ff).length = 0 then none
          else some (.encounteredErrors
            (min wF.toNat ((readLines content).filter ff).length)), st))
    ∧ (permF.filter ff).length = ((readLines content).filter ff).length := by
  have hnw : ¬(w ≤ 0) := not_le.mpr hw
  have hlen : ¬(l.length = 0) := by simpa [List.length_eq_zero] using hl
  have hKeq : (perm.filter f).length = (l.filter f).length :=
    (hperm.filter f).length_eq
  have hKeqF : (permF.filter ff).length =
      ((readLines content).filter ff).length :=
    (hpermF.filter ff).length_eq
  obtain ⟨st2, hrun, hp, hc, he, hg⟩ :=
    runPool_ok f l.length (100 : Int) false false (Or.inl rfl) perm
      (initPool α)
  have herr : st2.errList = perm.filter f := by
    rw [he]
    simp only [initPool, List.nil_append, List.length_nil, Nat.sub_zero]
    exact List.take_of_length_le
      (le_trans (List.length_filter_le f perm) (le_of_eq hperm.length_eq))
  have hnwF : ¬(wF ≤ 0) := not_le.mpr hwF
  obtain ⟨st3, hrunF, hpF, hcF, heF, hgF⟩ :=
    runPool_ok ff wF.toNat (100 : Int) false false (Or.inl rfl) permF
      (initPool (List Nat))
  have herrF : st3.errList = (permF.filter ff).take wF.toNat := by
    rw [heF]
    simp [initPool]
  refine ⟨⟨st2, ?_⟩, hKeq, ⟨st3, ?_⟩, hKeqF⟩
  · simp only [ParallelQueue.Process, NewParallelQueue,
      ParallelQueue.WithItems, ParallelQueue.OnProcessItem, hnw, if_neg hnw,
      hlen, if_neg hlen, hrun]
    rw [herr, hKeq]
    by_cases hk : (l.filter f).length = 0
    · simp [hk]
    · simp [hk, Nat.pos_of_ne_zero hk]
  · simp only [ParallelFileProcessor.Process, NewParallelFileProcessor,
      ParallelFileProcessor.WithFilePath, ParallelFileProcessor.OnProcessLine,
      hnwF, if_neg hnwF, hpath, if_neg hpath, hfs, hrunF]
    rw [herrF]
    have hlenF : ((permF.filter ff).take wF.toNat).length =
        min wF.toNat ((readLines content).filter ff).length := by
      rw [List.length_take, hKeqF]
    rw [hlenF]
    by_cases hk : min wF.toNat ((readLines content).filter ff).length = 0
    · simp [hk]
    · simp [hk, Nat.pos_of_ne_zero hk]

theorem error_channel_capacity_witness :
    (∃ st,
      (((NewParallelQueue Int 2).WithItems (some [1, 2])).OnProcessItem
        (fun x => x == 2)).Process [1, 2] =
      some ([2], some (.encounteredErrors 1), st))
    ∧ ([1, 2].filter (fun x => x == 2)).length = 1
    ∧ (∃ st,
      ((((NewParallelFileProcessor 1).WithFilePath "f").OnProcessLine
        (fun _ => true)).Process (fun _ => some [97, 10]) [[97]]) =
      some ([[97]], some (.encounteredErrors 1), st))
    ∧ ([[97]].filter (fun _ => true)).length =
        ((readLines [97, 10]).filter (fun _ => true)).length :=
  error_channel_capacity Int 2 [1, 2] (fun x => x == 2) [1, 2]
    1 "f" [97, 10] (fun _ => true) (fun _ => some [97, 10]) [[97]]
    (by decide) (by decide) (List.Perm.refl _)
    (by decide) (by decide) rfl (List.Perm.refl _)

/-- C6 counterexample: a file whose content is "a", line feed, "b" makes
the producer deliver only the line "a": the final line "b", not terminated
by a line feed, is dropped when the reader hits end of stream, so the
process function runs once instead of the claimed once per line including
the final unterminated one. -/
theorem file_final_line_dropped_counterexample :
    readLines [97, 10, 98] = [[97]]
    ∧ (((NewParallelFileProcessor 1).WithFilePath "f").OnProcessLine
        (fun _ => false)).Process (fun _ => some [97, 10, 98]) [[97]]
      = some ([], none,
          { errList := [], processed := 1, processCalls := 1,
            progressCalls := [], errorCalls := 0 })
    ∧ (1 : Nat) ≠ 2 := ⟨rfl, rfl, by decide⟩

/-- C6 (amended): the lines delivered to the workers are exactly the
line-feed-terminated lines of the file with the trailing delimiter
stripped — bytes after the last line feed (a final unterminated line) are
never delivered — and the process function is invoked exactly once per
delivered line. -/
theorem file_lines_split (ls : List (List Nat)) (tail : List Nat)
    (wF : Int) (path : String) (ff : List Nat → Bool)
    (fs : String → Option (List Nat)) (permF : List (List Nat))
    (hls : ∀ l ∈ ls, 10 ∉ l) (htail : 10 ∉ tail)
    (hwF : 0 < wF) (hpath : path ≠ "")
    (hfs : fs path = some ((ls.map (fun l => l ++ [10])).flatten ++ tail))
    (hpermF : permF.Perm ls) :
    readLines ((ls.map (fun l => l ++ [10])).flatten ++ tail) = ls
    ∧ ∃ errItems err st,
        (((NewParallelFileProcessor wF).WithFilePath path).OnProcessLine
          ff).Process fs permF = some (errItems, err, st)
        ∧ st.processCalls = ls.length := by
  refine ⟨readLines_join ls tail hls htail, ?_⟩
  have hnwF : ¬(wF ≤ 0) := not_le.mpr hwF
  obtain ⟨st3, hrunF, hpF, hcF, heF, hgF⟩ :=
    runPool_ok ff wF.toNat (100 : Int) false false (Or.inl rfl) permF
      (initPool (List Nat))
  refine ⟨st3.errList,
    if st3.errList.length > 0 then
      some (.encounteredErrors st3.errList.length) else none, st3, ?_, ?_⟩
  · simp only [ParallelFileProcessor.Process, NewParallelFileProcessor,
      ParallelFileProcessor.WithFilePath, ParallelFileProcessor.OnProcessLine,
      hnwF, if_neg hnwF, hpath, if_neg hpath, hfs, hrunF]
    simp
  · rw [hcF, hpermF.length_eq]
    simp [initPool]

theorem file_lines_split_witness :
    readLines (([[97], [98]].map (fun l => l ++ [10])).flatten ++ [99]) =
      [[97], [98]]
    ∧ ∃ errItems err st,
        (((NewParallelFileProcessor 1).WithFilePath "f").OnProcessLine
          (fun _ => false)).Process
          (fun _ => some (([[97], [98]].map
            (fun l => l ++ [10])).flatten ++ [99]))
          [[97], [98]] = some (errItems, err, st)
        ∧ st.processCalls = [[97], [98]].length :=
  file_lines_split [[97], [98]] [99] 1 "f" (fun _ => false)
    (fun _ => some (([[97], [98]].map (fun l => l ++ [10])).flatten ++ [99]))
    [[97], [98]]
    (by decide) (by decide) (by decide) (by decide) rfl (List.Perm.refl _)

/-- C7: in a valid run with a progress notifier and batch size B > 0 over
M items, the mutex-guarded processed counter takes each value 1..M exactly
once — after the worker bodies for any j items it equals j and it ends at
M — and the progress notifier is invoked exactly once for each processed
count in 1..M divisible by B, with that count passed to it. -/
theorem progress_batches (α : Type) (w : Int) (l : List α) (f : α → Bool)
    (B : Int) (perm : List α)
    (hw : 0 < w) (hl : l ≠ []) (hB : 0 < B) (hperm : perm.Perm l) :
    ∃ errItems err st,
      (ParallelQueue.WithProgressNotifier
        (((NewParallelQueue α w).WithItems (some l)).OnProcessItem f)
        B true).Process perm = some (errItems, err, st)
      ∧ st.processed = l.length
      ∧ (∀ p : Nat, st.progressCalls.count p =
          if 0 < p ∧ p ≤ l.length ∧ Int.tmod (p : Int) B = 0 then 1 else 0)
      ∧ (∀ j, j ≤ l.length →
          ∃ stj, runPool f l.length B true false (initPool α) (perm.take j)
              = some stj ∧ stj.processed = j) := by
  have hnw : ¬(w ≤ 0) := not_le.mpr hw
  have hlen : ¬(l.length = 0) := by simpa [List.length_eq_zero] using hl
  have hBne : B ≠ 0 := ne_of_gt hB
  obtain ⟨st2, hrun, hp, hc, he, hg⟩ :=
    runPool_ok f l.length B true false (Or.inr hBne) perm (initPool α)
  refine ⟨st2.errList,
    if st2.errList.length > 0 then
      some (.encounteredErrors st2.errList.length) else none, st2,
    ?_, ?_, ?_, ?_⟩
  · simp only [ParallelQueue.Process, NewParallelQueue,
      ParallelQueue.WithItems, ParallelQueue.OnProcessItem,
      ParallelQueue.WithProgressNotifier, hnw, if_neg hnw, hlen,
      if_neg hlen, hrun]
    simp
  · rw [hp, hperm.length_eq]
    simp [initPool]
  · intro p
    have hg2 : st2.progressCalls = multiplesIn B 0 perm.length := by
      rw [hg]
      simp [initPool]
    rw [hg2, multiplesIn_count, hperm.length_eq]
    simp
  · intro j hj
    obtain ⟨stj, hrunj, hpj, -, -, -⟩ :=
      runPool_ok f l.length B true false (Or.inr hBne) (perm.take j)
        (initPool α)
    refine ⟨stj, hrunj, ?_⟩
    rw [hpj, List.length_take, hperm.length_eq]
    simp [initPool, Nat.min_eq_left hj]

theorem progress_batches_witness :
    ∃ errItems err st,
      (ParallelQueue.WithProgressNotifier
        (((NewParallelQueue Int 1).WithItems
          (some [1, 2, 3, 4])).OnProcessItem (fun _ => false))
        2 true).Process [1, 2, 3, 4] = some (errItems, err, st)
      ∧ st.processed = [1, 2, 3, 4].length
      ∧ (∀ p : Nat, st.progressCalls.count p =
          if 0 < p ∧ p ≤ [1, 2, 3, 4].length ∧ Int.tmod (p : Int) 2 = 0
          then 1 else 0)
      ∧ (∀ j, j ≤ [1, 2, 3, 4].length →
          ∃ stj, runPool (fun _ => false) [1, 2, 3, 4].length 2 true false
              (initPool Int) ([1, 2, 3, 4].take j) = some stj
            ∧ stj.processed = j) :=
  progress_batches Int 1 [1, 2, 3, 4] (fun _ => false) 2 [1, 2, 3, 4]
    (by decide) (by decide) (by decide) (List.Perm.refl _)

/-- C10: with a valid configuration, a progress notifier set via
WithProgressNotifier with batch size 0, Process panics on the first
processed item — the precondition checks accept the zero batch and the
batch-crossing test divides by zero — for both the in-memory queue and
the file processor; the panic happens inside the very first worker-body
iteration. -/
theorem zero_batch_panics (α : Type) (w : Int) (l : List α) (f : α → Bool)
    (perm : List α)
    (wF : Int) (path : String) (content : List Nat) (ff : List Nat → Bool)
    (fs : String → Option (List Nat)) (permF : List (List Nat))
    (hw : 0 < w) (hl : l ≠ []) (hperm : perm.Perm l)
    (hwF : 0 < wF) (hpath : path ≠ "") (hfs : fs path = some content)
    (hlines : readLines content ≠ [])
    (hpermF : permF.Perm (readLines content)) :
    (∀ (st : PoolState α) (x : α),
        poolStep f l.length 0 true false st x = none)
    ∧ (ParallelQueue.WithProgressNotifier
        (((NewParallelQueue α w).WithItems (some l)).OnProcessItem f)
        0 true).Process perm = none
    ∧ (ParallelFileProcessor.WithProgressNotifier
        (((NewParallelFileProcessor wF).WithFilePath path).OnProcessLine ff)
        0 true).Process fs permF = none := by
  have hstep : ∀ (β : Type) (g : β → Bool) (cap : Nat) (st : PoolState β)
      (x : β), poolStep g cap 0 true false st x = none := by
    intro β g cap st x
    by_cases hgf : g x
    · by_cases hlenb : st.errList.length < cap <;>
        simp [poolStep, goMod, hgf, hlenb]
    · simp [poolStep, goMod, hgf]
  have hnw : ¬(w ≤ 0) := not_le.mpr hw
  have hlen : ¬(l.length = 0) := by simpa [List.length_eq_zero] using hl
  have hnwF : ¬(wF ≤ 0) := not_le.mpr hwF
  have hpne : perm ≠ [] := by
    intro h
    subst h
    exact hl hperm.symm.eq_nil
  have hpneF : permF ≠ [] := by
    intro h
    subst h
    exact hlines hpermF.symm.eq_nil
  refine ⟨hstep α f l.length, ?_, ?_⟩
  · cases perm with
    | nil => exact absurd rfl hpne
    | cons x rest =>
        simp only [ParallelQueue.Process, NewParallelQueue,
          ParallelQueue.WithItems, ParallelQueue.OnProcessItem,
          ParallelQueue.WithProgressNotifier, hnw, if_neg hnw, hlen,
          if_neg hlen, runPool, hstep α f l.length]
        simp
  · cases permF with
    | nil => exact absurd rfl hpneF
    | cons x rest =>
        simp only [ParallelFileProcessor.Process, NewParallelFileProcessor,
          ParallelFileProcessor.WithFilePath,
          ParallelFileProcessor.OnProcessLine,
          ParallelFileProcessor.WithProgressNotifier, hnwF, if_neg hnwF,
          hpath, if_neg hpath, hfs, runPool,
          hstep (List Nat) ff wF.toNat]
        simp

theorem zero_batch_panics_witness :
    (∀ (st : PoolState Int) (x : Int),
        poolStep (fun _ => false) [1].length 0 true false st x = none)
    ∧ (ParallelQueue.WithProgressNotifier
        (((NewParallelQueue Int 1).WithItems (some [1])).OnProcessItem
          (fun _ => false)) 0 true).Process [1] = none
    ∧ (ParallelFileProcessor.WithProgressNotifier
        (((NewParallelFileProcessor 1).WithFilePath "f").OnProcessLine
          (fun _ => false)) 0 true).Process (fun _ => some [10]) [[]] = none :=
  zero_batch_panics Int 1 [1] (fun _ => false) [1]
    1 "f" [10] (fun _ => false) (fun _ => some [10]) [[]]
    (by decide) (by decide) (List.Perm.refl _)
    (by decide) (by decide) rfl (by decide) (List.Perm.refl _)

end Kyro
